import Mathlib

/-!
Verification development for the agent-dashboard core (`app.py`): the
per-agent worker lifecycle, queue processing, heartbeat recording, the
start/stop/submit handlers, and the heartbeat/liveness classifier.

The session state (`st.session_state.agent_status`, `agent_logs`,
`last_heartbeat`, `agent_threads`, `agent_queues`, `agent_progress`) is
modelled as a record `DashState`; the worker loop `agent_worker` is
modelled as a small-step function on worker program counters, and the
button handlers as state transformers.  Time is modelled as rational
seconds since 1900-01-01 00:00:00 (the reference date that Python's
`datetime.strptime(s, "%H:%M:%S")` assigns to a parsed time-of-day).
-/

namespace AgentDash

set_option maxRecDepth 4096

/-- The fixed agent set: `agents = ["Listener", "Planner", "Executor"]`. -/
inductive Agent
  | Listener
  | Planner
  | Executor
  deriving DecidableEq

/-- The status strings stored in `st.session_state.agent_status`:
`"idle"` (initial), `"running"`, `"stopped"`. -/
inductive Status
  | idle
  | running
  | stopped
  deriving DecidableEq

/-- `datetime.now().strftime("%H:%M:%S")` keeps only the (whole-second)
time of day of a timestamp: with timestamps measured in rational seconds
since 1900-01-01 00:00:00, the stored heartbeat value is the floor of the
timestamp modulo 86400. -/
def secondsOfDay (t : ℚ) : ℤ :=
  Int.floor t % 86400

/-- `datetime.strptime(s, "%H:%M:%S")` produces a datetime on the default
date 1900-01-01, i.e. the parsed seconds-of-day value interpreted as an
absolute timestamp on the epoch day. -/
def strptimeHMS (hb : ℤ) : ℚ :=
  (hb : ℚ)

/-- The emoji classifier `heartbeat_status(agent_name)` from the source,
as a pure function of the agent's status, its stored `last_heartbeat`
value (`None`, or the seconds-of-day written by `strftime("%H:%M:%S")`),
and the current time `now`.  `delta` is
`(datetime.now() - datetime.strptime(last_seen, "%H:%M:%S")).total_seconds()`. -/
def heartbeat_status (status : Status) (last_seen : Option ℤ) (now : ℚ) : String :=
  match status with
  | Status.running =>
    match last_seen with
    | some hb =>
      let delta : ℚ := now - strptimeHMS hb
      if delta ≤ 1 then "💚"
      else if delta ≤ 2 then "💛"
      else "🟡"
    | none => "💚"
  | Status.stopped => "🔴"
  | Status.idle => "🟡"

/-- The six liveness outcomes named by the specification. -/
inductive Liveness
  | Healthy
  | Degraded
  | Stale
  | Dead
  | Unknown
  | FreshOptimistic
  deriving DecidableEq

/-- Modelled from the spec (for comparison with `heartbeat_status`): the
liveness table — Stopped gives Dead, Idle gives Unknown, Running with no
heartbeat gives FreshOptimistic, and otherwise the classification is by
the true elapsed time `now - lastHeartbeat`: at most 1 s Healthy, at most
2 s Degraded, more Stale. -/
def classifyLiveness (status : Status) (lastHeartbeat : Option ℚ) (now : ℚ) : Liveness :=
  match status with
  | Status.stopped => Liveness.Dead
  | Status.idle => Liveness.Unknown
  | Status.running =>
    match lastHeartbeat with
    | none => Liveness.FreshOptimistic
    | some hb =>
      if now - hb ≤ 1 then Liveness.Healthy
      else if now - hb ≤ 2 then Liveness.Degraded
      else Liveness.Stale

/-- C1: the claim fails on the code.  A heartbeat recorded at timestamp
86400 (midnight starting the day after the strptime epoch day) is stored
as the time-of-day value 0; classifying it half a second later, the code
computes `delta = 86400.5` against the 1900-01-01 parse and returns the
stale emoji `🟡`, although the true elapsed time is 0.5 s and the spec
table gives Healthy.  Moreover the six spec outcomes are not six distinct
values of the code's classification: Stale and Unknown are both rendered
`🟡` (third conjunct) and FreshOptimistic and Healthy are both rendered
`💚` (fourth conjunct). -/
theorem heartbeat_status_misparses_fresh_heartbeat :
    heartbeat_status Status.running (some (secondsOfDay 86400)) (86400 + 1/2) = "🟡" ∧
    classifyLiveness Status.running (some 86400) (86400 + 1/2) = Liveness.Healthy ∧
    heartbeat_status Status.running (some 0) 10 = heartbeat_status Status.idle none 10 ∧
    heartbeat_status Status.running none 10
      = heartbeat_status Status.running (some 10) (10 + 1/2) := by
  refine ⟨?_, ?_, ?_, ?_⟩ <;>
    norm_num [heartbeat_status, classifyLiveness, secondsOfDay, strptimeHMS]

/-- A queued task: the opaque callable `task(step, total_steps)` that
either produces a display string or fails with an error message. -/
def Task : Type := ℕ → ℕ → Except String String

/-- `task_steps = 20`: the fixed number of simulated steps per task. -/
def task_steps : ℕ := 20

/-- One log line, kept structured; `render` recovers the exact string the
source appends.  Times are absolute timestamps (rational seconds). -/
inductive LogEntry
  | started (t : ℚ)
  | stopped (t : ℚ)
  | queued (t : ℚ) (taskType : String)
  | failed (t : ℚ) (err : String)
  | completed (t : ℚ)
  deriving DecidableEq

/-- Zero-padded decimal rendering of one clock field. -/
def pad2 (n : ℤ) : String :=
  if n < 10 then "0" ++ toString n else toString n

/-- The `strftime("%H:%M:%S")` rendering of a timestamp. -/
def fmtHMS (t : ℚ) : String :=
  let sec := secondsOfDay t
  pad2 (sec / 3600) ++ ":" ++ pad2 (sec % 3600 / 60) ++ ":" ++ pad2 (sec % 60)

/-- The exact strings the source appends to `agent_logs`. -/
def render : LogEntry → String
  | LogEntry.started t => "[" ++ fmtHMS t ++ "] Agent started"
  | LogEntry.stopped t => "[" ++ fmtHMS t ++ "] Agent stopped"
  | LogEntry.queued t ty => "[" ++ fmtHMS t ++ "] Task queued: " ++ ty
  | LogEntry.failed t e => "[" ++ fmtHMS t ++ "] Task failed: " ++ e
  | LogEntry.completed t => "[" ++ fmtHMS t ++ "] Task completed successfully"

/-- Program counter of one `agent_worker` thread.  `checkLoop` is the
`while status == running` test, `getTask` is the
`queue.get(timeout=1)` call, `inTask t i` is the body of
`for step in range(1, task_steps + 1)` about to invoke step `i` of task
`t`, and `done` means the loop has exited and the thread terminated. -/
inductive WPC
  | checkLoop
  | getTask
  | inTask (t : Task) (i : ℕ)
  | done

/-- One spawned worker thread: the agent it serves, its program counter,
and a count of task-step invocations it has performed (a ghost
observation used to state latency bounds). -/
structure Worker where
  agent : Agent
  pc : WPC
  invocations : ℕ

/-- The whole session state, plus the list of spawned worker threads and
a global clock.  `hbTimes` is a ghost history recording, per agent, the
absolute time of every `last_heartbeat` write. -/
structure DashState where
  agent_status : Agent → Status
  agent_logs : Agent → List LogEntry
  last_heartbeat : Agent → Option ℤ
  agent_threads : Agent → Option ℕ
  agent_queues : Agent → List Task
  agent_progress : Agent → ℚ
  workers : List Worker
  clock : ℚ
  hbTimes : Agent → List ℚ

/-- The session-state initialisation block: every agent idle, no logs, no
heartbeat, no threads, empty queues, progress 0.0. -/
def initState : DashState where
  agent_status := fun _ => Status.idle
  agent_logs := fun _ => []
  last_heartbeat := fun _ => none
  agent_threads := fun _ => none
  agent_queues := fun _ => []
  agent_progress := fun _ => 0
  workers := []
  clock := 0
  hbTimes := fun _ => []

/-- One small step of the `agent_worker(agent_name)` loop for thread `w`,
returning the updated session state and the updated thread.
* at `checkLoop`, test `agent_status[agent_name] == "running"`: enter the
  loop body (`getTask`) or fall out of the loop (`done`);
* at `getTask`, either the queue is empty — the `except Empty` branch
  records `last_heartbeat`, sleeps (1 s timeout + 0.5 s idle sleep) and
  continues the loop — or the head task is removed and the step loop is
  entered at step 1;
* at `inTask t i`, invoke `t i task_steps`: on success set
  `agent_progress = i / task_steps`, record `last_heartbeat`, sleep 0.1 s
  and move to step `i+1` (or, after the final step, append the
  "Task completed successfully" entry, reset progress to 0.0 and return
  to the loop test); on failure append the "Task failed" entry, reset
  progress to 0.0 and `break` back to the loop test. -/
def workerStep (s : DashState) (w : Worker) : DashState × Worker :=
  match w.pc with
  | WPC.checkLoop =>
    if s.agent_status w.agent = Status.running then
      (s, { w with pc := WPC.getTask })
    else
      (s, { w with pc := WPC.done })
  | WPC.getTask =>
    match s.agent_queues w.agent with
    | [] =>
      ({ s with
          last_heartbeat :=
            Function.update s.last_heartbeat w.agent (some (secondsOfDay s.clock)),
          hbTimes :=
            Function.update s.hbTimes w.agent (s.hbTimes w.agent ++ [s.clock]),
          clock := s.clock + 3/2 },
       { w with pc := WPC.checkLoop })
    | t :: rest =>
      ({ s with agent_queues := Function.update s.agent_queues w.agent rest },
       { w with pc := WPC.inTask t 1 })
  | WPC.inTask t i =>
    match t i task_steps with
    | Except.ok _ =>
      let s1 : DashState :=
        { s with
            agent_progress :=
              Function.update s.agent_progress w.agent ((i : ℚ) / (task_steps : ℚ)),
            last_heartbeat :=
              Function.update s.last_heartbeat w.agent (some (secondsOfDay s.clock)),
            hbTimes :=
              Function.update s.hbTimes w.agent (s.hbTimes w.agent ++ [s.clock]),
            clock := s.clock + 1/10 }
      if i < task_steps then
        (s1, { w with pc := WPC.inTask t (i + 1), invocations := w.invocations + 1 })
      else
        ({ s1 with
            agent_logs :=
              Function.update s1.agent_logs w.agent
                (s1.agent_logs w.agent ++ [LogEntry.completed s1.clock]),
            agent_progress := Function.update s1.agent_progress w.agent 0 },
         { w with pc := WPC.checkLoop, invocations := w.invocations + 1 })
    | Except.error e =>
      ({ s with
          agent_logs :=
            Function.update s.agent_logs w.agent
              (s.agent_logs w.agent ++ [LogEntry.failed s.clock e]),
          agent_progress := Function.update s.agent_progress w.agent 0 },
       { w with pc := WPC.checkLoop, invocations := w.invocations + 1 })
  | WPC.done => (s, w)

/-- The task closure built by `make_task(task_type, content)` on
submission: every step sleeps briefly and returns a display string
(`content` has already been decoded to a string, so the `isinstance`
test always takes the string branch); it never raises. -/
def make_task (ty : String) (content : String) : Task :=
  fun stepIdx total =>
    Except.ok (ty ++ ": " ++ content ++ "... step " ++ toString stepIdx ++ "/" ++ toString total)

/-- Whitespace characters stripped by Python's `str.strip()` (the ASCII
ones). -/
def pySpace (c : Char) : Bool :=
  c = ' ' || c = '\t' || c = '\n' || c = '\r' || c = '\x0b' || c = '\x0c'

/-- Python `str.strip()`: drop leading and trailing whitespace. -/
def pyStrip (str : String) : String :=
  String.mk (((str.data.dropWhile pySpace).reverse.dropWhile pySpace).reverse)

/-- Truthiness of `task_input and task_input.strip()`: the text input is
present, non-empty, and non-empty after stripping. -/
def truthyInput : Option String → Bool
  | none => false
  | some t => if t = "" then false else if pyStrip t = "" then false else true

/-- The `if start_clicked` handler: if the agent is not running, set it
running, append the "Agent started" entry, spawn a new worker thread at
the top of the loop and store its handle; otherwise do nothing. -/
def controlStart (s : DashState) (a : Agent) : DashState :=
  if s.agent_status a = Status.running then s
  else
    { s with
        agent_status := Function.update s.agent_status a Status.running,
        agent_logs :=
          Function.update s.agent_logs a (s.agent_logs a ++ [LogEntry.started s.clock]),
        agent_threads := Function.update s.agent_threads a (some s.workers.length),
        workers := s.workers ++ [⟨a, WPC.checkLoop, 0⟩] }

/-- The `if stop_clicked` handler: if the agent is running, set it
stopped and append the "Agent stopped" entry; otherwise do nothing. -/
def controlStop (s : DashState) (a : Agent) : DashState :=
  if s.agent_status a = Status.running then
    { s with
        agent_status := Function.update s.agent_status a Status.stopped,
        agent_logs :=
          Function.update s.agent_logs a (s.agent_logs a ++ [LogEntry.stopped s.clock]) }
  else s

/-- The `if submit_task` handler: if the text input is truthy after
stripping, or a file was uploaded, enqueue `make_task(task_type, content)`
(content is the decoded file if present, else the text input) and append
the "Task queued" entry; otherwise do nothing. -/
def controlSubmit (s : DashState) (a : Agent) (ty : String)
    (textInput fileContent : Option String) : DashState :=
  if truthyInput textInput || fileContent.isSome then
    let content :=
      match fileContent with
      | some fc => fc
      | none => textInput.getD ""
    { s with
        agent_queues :=
          Function.update s.agent_queues a (s.agent_queues a ++ [make_task ty content]),
        agent_logs :=
          Function.update s.agent_logs a (s.agent_logs a ++ [LogEntry.queued s.clock ty]) }
  else s

/-- Events of the interleaved system: the three control-layer handlers, a
small step of the `i`-th spawned worker thread, and the passage of time. -/
inductive Act
  | start (a : Agent)
  | stop (a : Agent)
  | submit (a : Agent) (ty : String) (textInput fileContent : Option String)
  | work (i : ℕ)
  | tick (d : ℚ)
  deriving DecidableEq

/-- The transition function of the interleaved system. -/
def act (s : DashState) (a : Act) : DashState :=
  match a with
  | Act.start ag => controlStart s ag
  | Act.stop ag => controlStop s ag
  | Act.submit ag ty c f => controlSubmit s ag ty c f
  | Act.tick d => { s with clock := s.clock + max d 0 }
  | Act.work i =>
    match s.workers[i]? with
    | none => s
    | some w =>
      let p := workerStep s w
      { p.1 with workers := p.1.workers.set i p.2 }

/-- Run a sequence of events from a given state. -/
def runFrom (s : DashState) (acts : List Act) : DashState :=
  acts.foldl act s

/-- Run a sequence of events from the initial session state; every
reachable state of the system is `run acts` for some event list. -/
def run (acts : List Act) : DashState :=
  runFrom initState acts

/-- Invocation count of the `i`-th worker thread (0 if absent). -/
def workerInv (s : DashState) (i : ℕ) : ℕ :=
  match s.workers[i]? with
  | some w => w.invocations
  | none => 0

/-- Agent served by the `i`-th worker thread. -/
def workerAgentAt (s : DashState) (i : ℕ) : Option Agent :=
  match s.workers[i]? with
  | some w => some w.agent
  | none => none

/-- Whether a worker program counter is still inside the loop (the
thread has not terminated). -/
def activePC : WPC → Bool
  | WPC.done => false
  | _ => true

/-- Whether the `i`-th worker thread is still alive. -/
def workerBusy (s : DashState) (i : ℕ) : Bool :=
  match s.workers[i]? with
  | some w => activePC w.pc
  | none => false

/-- Whether the `i`-th worker thread is at the `while` test. -/
def workerAtCheck (s : DashState) (i : ℕ) : Bool :=
  match s.workers[i]? with
  | some w =>
    match w.pc with
    | WPC.checkLoop => true
    | _ => false
  | none => false

/-- Whether the `i`-th worker thread is at the dequeue call. -/
def workerAtGet (s : DashState) (i : ℕ) : Bool :=
  match s.workers[i]? with
  | some w =>
    match w.pc with
    | WPC.getTask => true
    | _ => false
  | none => false

/-- Number of live (not yet terminated) worker threads bound to agent
`a`. -/
def activeWorkerCount (s : DashState) (a : Agent) : ℕ :=
  (s.workers.filter (fun w => decide (w.agent = a) && activePC w.pc)).length

/-- Helper: setting index `i` of a list that has an element at `i`
yields the new element at `i`. -/
theorem get?_set_self {α : Type} {l : List α} {i : ℕ} {b : α} (a : α)
    (h : l[i]? = some b) : (l.set i a)[i]? = some a := by
  rw [List.getElem?_set_self', h]
  rfl

/-- Helper: an index holding an element is inside the list. -/
theorem lt_length_of_get? {α : Type} {l : List α} {i : ℕ} {b : α}
    (h : l[i]? = some b) : i < l.length := by
  obtain ⟨hlt, _⟩ := List.getElem?_eq_some.mp h
  exact hlt

/-- The worker loop never touches the recorded thread list. -/
theorem workerStep_fst_workers (s : DashState) (w : Worker) :
    (workerStep s w).1.workers = s.workers := by
  rcases w with ⟨ag, pc, inv⟩
  cases pc with
  | checkLoop => by_cases h : s.agent_status ag = Status.running <;> simp [workerStep, h]
  | getTask => cases h : s.agent_queues ag <;> simp [workerStep, h]
  | inTask t k =>
    cases h : t k task_steps with
    | ok r => by_cases hk : k < task_steps <;> simp [workerStep, h, hk]
    | error e => simp [workerStep, h]
  | done => simp [workerStep]

/-- The worker loop never writes `agent_status`. -/
theorem workerStep_fst_status (s : DashState) (w : Worker) :
    (workerStep s w).1.agent_status = s.agent_status := by
  rcases w with ⟨ag, pc, inv⟩
  cases pc with
  | checkLoop => by_cases h : s.agent_status ag = Status.running <;> simp [workerStep, h]
  | getTask => cases h : s.agent_queues ag <;> simp [workerStep, h]
  | inTask t k =>
    cases h : t k task_steps with
    | ok r => by_cases hk : k < task_steps <;> simp [workerStep, h, hk]
    | error e => simp [workerStep, h]
  | done => simp [workerStep]

/-- The worker loop keeps serving the same agent. -/
theorem workerStep_snd_agent (s : DashState) (w : Worker) :
    (workerStep s w).2.agent = w.agent := by
  rcases w with ⟨ag, pc, inv⟩
  cases pc with
  | checkLoop => by_cases h : s.agent_status ag = Status.running <;> simp [workerStep, h]
  | getTask => cases h : s.agent_queues ag <;> simp [workerStep, h]
  | inTask t k =>
    cases h : t k task_steps with
    | ok r => by_cases hk : k < task_steps <;> simp [workerStep, h, hk]
    | error e => simp [workerStep, h]
  | done => simp [workerStep]

/-- Wellformedness of a worker program counter: the step index of an
in-progress task stays within `1..task_steps` (as the `for` loop of the
source guarantees). -/
def wfB : WPC → Bool
  | WPC.inTask _ k => decide (1 ≤ k) && decide (k ≤ task_steps)
  | _ => true

/-- Wellformedness of the `i`-th worker thread (vacuous if absent). -/
def workerWFB (s : DashState) (i : ℕ) : Bool :=
  match s.workers[i]? with
  | some w => wfB w.pc
  | none => true

/-- Upper bound on the number of task-step invocations a worker can still
perform before its next `while` test once the status is no longer
running: none once the test is reached, up to a whole dequeued task from
the dequeue call, and the remaining steps of the current task mid-task. -/
def budget : WPC → ℕ
  | WPC.done => 0
  | WPC.checkLoop => 0
  | WPC.getTask => task_steps
  | WPC.inTask _ k => task_steps + 1 - k

/-- The budget of the `i`-th worker thread (0 if absent). -/
def budgetAt (s : DashState) (i : ℕ) : ℕ :=
  match s.workers[i]? with
  | some w => budget w.pc
  | none => 0

/-- Once its agent's status is not running, one worker-loop step keeps
the program counter wellformed and can only spend budget: the invocation
count plus the remaining budget never grows. -/
theorem workerStep_stopped_budget (s : DashState) (w : Worker)
    (hs : s.agent_status w.agent ≠ Status.running) (hwf : wfB w.pc = true) :
    wfB (workerStep s w).2.pc = true ∧
    (workerStep s w).2.invocations + budget (workerStep s w).2.pc
      ≤ w.invocations + budget w.pc := by
  rcases w with ⟨ag, pc, inv⟩
  simp only at hs hwf
  cases pc with
  | checkLoop => simp [workerStep, hs, wfB, budget]
  | getTask =>
    cases h : s.agent_queues ag with
    | nil => simp [workerStep, h, wfB, budget]
    | cons t rest =>
      simp [workerStep, h, wfB, budget, task_steps]
  | inTask t k =>
    have hk : 1 ≤ k ∧ k ≤ task_steps := by
      simpa [wfB, Bool.and_eq_true, decide_eq_true_iff] using hwf
    cases h : t k task_steps with
    | ok r =>
      by_cases hlt : k < task_steps
      · have : 1 ≤ k + 1 ∧ k + 1 ≤ task_steps := by omega
        simp only [workerStep, h, hlt, if_true]
        constructor
        · simp [wfB, this.1, this.2]
        · simp only [budget]
          omega
      · simp only [workerStep, h, hlt, if_false]
        constructor
        · simp [wfB]
        · simp only [budget, task_steps] at hk ⊢
          omega
    | error e =>
      simp only [workerStep, h]
      constructor
      · simp [wfB]
      · simp only [budget, task_steps] at hk ⊢
        omega
  | done => simp [workerStep, wfB, budget]

/-- One event of the interleaved system, other than a restart of agent
`a`, preserves "status of `a` is not running", keeps worker `i` bound to
`a` and wellformed, and never increases that worker's invocation count
plus remaining budget. -/
theorem stop_bound_act (s : DashState) (e : Act) (a : Agent) (i : ℕ)
    (hs : s.agent_status a ≠ Status.running) (hna : e ≠ Act.start a)
    (hag : workerAgentAt s i = some a) (hwf : workerWFB s i = true) :
    (act s e).agent_status a ≠ Status.running ∧
    workerAgentAt (act s e) i = some a ∧
    workerWFB (act s e) i = true ∧
    workerInv (act s e) i + budgetAt (act s e) i ≤ workerInv s i + budgetAt s i := by
  cases hget : s.workers[i]? with
  | none => simp [workerAgentAt, hget] at hag
  | some w =>
    have hwa : w.agent = a := by
      simpa [workerAgentAt, hget] using hag
    have hwfw : wfB w.pc = true := by
      simpa [workerWFB, hget] using hwf
    have hlen : i < s.workers.length := lt_length_of_get? hget
    cases e with
    | start b =>
      have hba : a ≠ b := by
        intro h
        exact hna (by rw [h])
      by_cases hb : s.agent_status b = Status.running
      · simp only [act, controlStart, hb, if_true]
        exact ⟨hs, hag, hwf, le_refl _⟩
      · simp only [act, controlStart, hb, if_false]
        refine ⟨?_, ?_, ?_, ?_⟩
        · simpa [Function.update_noteq hba] using hs
        · simp [workerAgentAt, List.getElem?_append_left hlen, hget, hwa]
        · simp [workerWFB, List.getElem?_append_left hlen, hget, hwfw]
        · simp [workerInv, budgetAt, List.getElem?_append_left hlen, hget]
    | stop b =>
      by_cases hb : s.agent_status b = Status.running
      · simp only [act, controlStop, hb, if_true]
        refine ⟨?_, ?_, ?_, ?_⟩
        · by_cases hba : a = b
          · subst hba
            simp [Function.update_same]
          · simpa [Function.update_noteq hba] using hs
        · simp [workerAgentAt, hget, hwa]
        · simp [workerWFB, hget, hwfw]
        · simp [workerInv, budgetAt, hget]
      · simp only [act, controlStop, hb, if_false]
        exact ⟨hs, hag, hwf, le_refl _⟩
    | submit b ty c f =>
      have hwk : (act s (Act.submit b ty c f)).workers = s.workers := by
        simp only [act, controlSubmit]
        split <;> rfl
      have hst : (act s (Act.submit b ty c f)).agent_status = s.agent_status := by
        simp only [act, controlSubmit]
        split <;> rfl
      refine ⟨by rw [hst]; exact hs, ?_, ?_, ?_⟩
      · simp [workerAgentAt, hwk, hget, hwa]
      · simp [workerWFB, hwk, hget, hwfw]
      · simp [workerInv, budgetAt, hwk, hget]
    | tick d =>
      simp only [act]
      exact ⟨hs, hag, hwf, le_refl _⟩
    | work j =>
      by_cases hji : j = i
      · subst hji
        have hact : act s (Act.work j)
            = { (workerStep s w).1 with
                  workers := (workerStep s w).1.workers.set j (workerStep s w).2 } := by
          simp [act, hget]
        have hw2 : ((workerStep s w).1.workers.set j (workerStep s w).2)[j]?
            = some (workerStep s w).2 := by
          rw [workerStep_fst_workers]
          exact get?_set_self _ hget
        have hbd := workerStep_stopped_budget s w (by rw [hwa]; exact hs) hwfw
        refine ⟨?_, ?_, ?_, ?_⟩
        · rw [hact]
          show (workerStep s w).1.agent_status a ≠ Status.running
          rw [workerStep_fst_status]
          exact hs
        · rw [hact]
          simp [workerAgentAt, hw2, workerStep_snd_agent, hwa]
        · rw [hact]
          simp [workerWFB, hw2, hbd.1]
        · rw [hact]
          simp only [workerInv, budgetAt, hw2, hget]
          exact hbd.2
      · cases hgj : s.workers[j]? with
        | none =>
          simp only [act, hgj]
          exact ⟨hs, hag, hwf, le_refl _⟩
        | some wj =>
          have hact : act s (Act.work j)
              = { (workerStep s wj).1 with
                    workers := (workerStep s wj).1.workers.set j (workerStep s wj).2 } := by
            simp [act, hgj]
          have hw2 : ((workerStep s wj).1.workers.set j (workerStep s wj).2)[i]?
              = some w := by
            rw [workerStep_fst_workers, List.getElem?_set_ne hji, hget]
          refine ⟨?_, ?_, ?_, ?_⟩
          · rw [hact]
            show (workerStep s wj).1.agent_status a ≠ Status.running
            rw [workerStep_fst_status]
            exact hs
          · rw [hact]
            simp [workerAgentAt, hw2, hwa]
          · rw [hact]
            simp [workerWFB, hw2, hwfw]
          · rw [hact]
            simp [workerInv, budgetAt, hw2, hget]

/-- Equation: a worker event at the `while` test with status running
enters the loop body. -/
theorem act_work_check_run (s : DashState) (i : ℕ) (w : Worker)
    (hw : s.workers[i]? = some w) (hpc : w.pc = WPC.checkLoop)
    (hrun : s.agent_status w.agent = Status.running) :
    act s (Act.work i)
      = { s with workers := s.workers.set i { w with pc := WPC.getTask } } := by
  obtain ⟨ag, pc, inv⟩ := w
  dsimp only at hpc hrun
  subst hpc
  simp [act, hw, workerStep, hrun]

/-- Equation: a worker event at the dequeue call with a nonempty queue
removes the head task and enters its step loop. -/
theorem act_work_deq (s : DashState) (i : ℕ) (w : Worker) (t : Task) (rest : List Task)
    (hw : s.workers[i]? = some w) (hpc : w.pc = WPC.getTask)
    (hq : s.agent_queues w.agent = t :: rest) :
    act s (Act.work i)
      = { s with
            agent_queues := Function.update s.agent_queues w.agent rest,
            workers := s.workers.set i { w with pc := WPC.inTask t 1 } } := by
  obtain ⟨ag, pc, inv⟩ := w
  dsimp only at hpc hq
  subst hpc
  simp [act, hw, workerStep, hq]

/-- Equation: a successful, non-final task step records progress and a
heartbeat, sleeps, and moves to the next step. -/
theorem act_work_ok (s : DashState) (i j : ℕ) (w : Worker) (t : Task) (r : String)
    (hw : s.workers[i]? = some w) (hpc : w.pc = WPC.inTask t j)
    (hok : t j task_steps = Except.ok r) (hlt : j < task_steps) :
    act s (Act.work i)
      = { s with
            agent_progress :=
              Function.update s.agent_progress w.agent ((j : ℚ) / (task_steps : ℚ)),
            last_heartbeat :=
              Function.update s.last_heartbeat w.agent (some (secondsOfDay s.clock)),
            hbTimes := Function.update s.hbTimes w.agent (s.hbTimes w.agent ++ [s.clock]),
            clock := s.clock + 1/10,
            workers := s.workers.set i
              { w with pc := WPC.inTask t (j + 1), invocations := w.invocations + 1 } } := by
  obtain ⟨ag, pc, inv⟩ := w
  dsimp only at hpc
  subst hpc
  simp [act, hw, workerStep, hok, hlt]

/-- Equation: a successful final task step additionally appends the
"Task completed successfully" entry and resets progress to 0.0. -/
theorem act_work_ok_last (s : DashState) (i j : ℕ) (w : Worker) (t : Task) (r : String)
    (hw : s.workers[i]? = some w) (hpc : w.pc = WPC.inTask t j)
    (hok : t j task_steps = Except.ok r) (hge : ¬ j < task_steps) :
    act s (Act.work i)
      = { s with
            agent_progress :=
              Function.update
                (Function.update s.agent_progress w.agent ((j : ℚ) / (task_steps : ℚ)))
                w.agent 0,
            last_heartbeat :=
              Function.update s.last_heartbeat w.agent (some (secondsOfDay s.clock)),
            hbTimes := Function.update s.hbTimes w.agent (s.hbTimes w.agent ++ [s.clock]),
            clock := s.clock + 1/10,
            agent_logs :=
              Function.update s.agent_logs w.agent
                (s.agent_logs w.agent ++ [LogEntry.completed (s.clock + 1/10)]),
            workers := s.workers.set i
              { w with pc := WPC.checkLoop, invocations := w.invocations + 1 } } := by
  obtain ⟨ag, pc, inv⟩ := w
  dsimp only at hpc
  subst hpc
  simp [act, hw, workerStep, hok, hge]

/-- Equation: a failing task step appends the "Task failed" entry,
resets progress to 0.0 and breaks back to the `while` test. -/
theorem act_work_err (s : DashState) (i j : ℕ) (w : Worker) (t : Task) (e : String)
    (hw : s.workers[i]? = some w) (hpc : w.pc = WPC.inTask t j)
    (herr : t j task_steps = Except.error e) :
    act s (Act.work i)
      = { s with
            agent_logs :=
              Function.update s.agent_logs w.agent
                (s.agent_logs w.agent ++ [LogEntry.failed s.clock e]),
            agent_progress := Function.update s.agent_progress w.agent 0,
            workers := s.workers.set i
              { w with pc := WPC.checkLoop, invocations := w.invocations + 1 } } := by
  obtain ⟨ag, pc, inv⟩ := w
  dsimp only at hpc
  subst hpc
  simp [act, hw, workerStep, herr]

/-- Running the step loop from step `j` of task `t`, where the next `n`
steps succeed and step `j + n` fails with `e`: exactly one "Task failed"
entry is appended (timed at the failing step, after `n` 0.1 s pauses),
progress is reset to 0.0, the worker performs exactly `n + 1` step
invocations and returns to the `while` test, and the status and queues
are untouched. -/
theorem run_fail_steps (t : Task) (e : String) (n : ℕ) :
    ∀ (s : DashState) (i j : ℕ) (w : Worker),
      s.workers[i]? = some w → w.pc = WPC.inTask t j →
      (∀ m, j ≤ m → m < j + n → (t m task_steps).isOk = true) →
      t (j + n) task_steps = Except.error e →
      j + n ≤ task_steps →
      ((runFrom s (List.replicate (n + 1) (Act.work i))).agent_logs w.agent
          = s.agent_logs w.agent ++ [LogEntry.failed (s.clock + (n : ℚ) / 10) e]) ∧
      (runFrom s (List.replicate (n + 1) (Act.work i))).agent_progress w.agent = 0 ∧
      (runFrom s (List.replicate (n + 1) (Act.work i))).workers[i]?
          = some ⟨w.agent, WPC.checkLoop, w.invocations + (n + 1)⟩ ∧
      (runFrom s (List.replicate (n + 1) (Act.work i))).agent_status = s.agent_status ∧
      (runFrom s (List.replicate (n + 1) (Act.work i))).agent_queues = s.agent_queues ∧
      (runFrom s (List.replicate (n + 1) (Act.work i))).clock = s.clock + (n : ℚ) / 10 := by
  induction n with
  | zero =>
    intro s i j w hw hpc hord herr hle
    rw [Nat.add_zero] at herr
    have heq := act_work_err s i j w t e hw hpc herr
    have hrun1 : runFrom s (List.replicate 1 (Act.work i)) = act s (Act.work i) := rfl
    obtain ⟨ag, pc, inv⟩ := w
    rw [hrun1, heq]
    refine ⟨?_, ?_, ?_, rfl, rfl, ?_⟩
    · simp [Function.update_same]
    · simp [Function.update_same]
    · simpa using get?_set_self _ hw
    · simp
  | succ n ih =>
    intro s i j w hw hpc hord herr hle
    have hokj : (t j task_steps).isOk = true := by
      refine hord j (le_refl j) ?_
      omega
    cases htj : t j task_steps with
    | error e2 =>
      rw [htj] at hokj
      simp [Except.isOk, Except.toBool] at hokj
    | ok r =>
      have hlt : j < task_steps := by omega
      have heq := act_work_ok s i j w t r hw hpc htj hlt
      obtain ⟨ag, pc, inv⟩ := w
      dsimp only at hpc heq ⊢
      subst hpc
      have hw1 : (act s (Act.work i)).workers[i]?
          = some (⟨ag, WPC.inTask t (j + 1), inv + 1⟩ : Worker) := by
        rw [heq]
        simpa using get?_set_self _ hw
      have hord1 : ∀ m, j + 1 ≤ m → m < (j + 1) + n → (t m task_steps).isOk = true := by
        intro m h1 h2
        refine hord m (by omega) (by omega)
      have herr1 : t ((j + 1) + n) task_steps = Except.error e := by
        have hjn : (j + 1) + n = j + (n + 1) := by omega
        rw [hjn]
        exact herr
      have hle1 : (j + 1) + n ≤ task_steps := by omega
      have hih := ih (act s (Act.work i)) i (j + 1)
        ⟨ag, WPC.inTask t (j + 1), inv + 1⟩ hw1 rfl hord1 herr1 hle1
      have hrun2 : runFrom s (List.replicate (n + 1 + 1) (Act.work i))
          = runFrom (act s (Act.work i)) (List.replicate (n + 1) (Act.work i)) := by
        rw [List.replicate_succ]
        rfl
      have hclk : (act s (Act.work i)).clock = s.clock + 1/10 := by
        rw [heq]
      have hlogs : (act s (Act.work i)).agent_logs = s.agent_logs := by
        rw [heq]
      have hst : (act s (Act.work i)).agent_status = s.agent_status := by
        rw [heq]
      have hqs : (act s (Act.work i)).agent_queues = s.agent_queues := by
        rw [heq]
      have harg : s.clock + 1/10 + (n : ℚ)/10 = s.clock + ((n + 1 : ℕ) : ℚ)/10 := by
        push_cast
        ring
      rw [hrun2]
      refine ⟨?_, hih.2.1, ?_, ?_, ?_, ?_⟩
      · rw [hih.1, hlogs, hclk, harg]
      · rw [hih.2.2.1]
        have hinv : inv + 1 + (n + 1) = inv + (n + 1 + 1) := by omega
        rw [hinv]
      · rw [hih.2.2.2.1, hst]
      · rw [hih.2.2.2.2.1, hqs]
      · rw [hih.2.2.2.2.2, hclk, harg]

/-- Running the step loop from step `j` of task `t`, where all remaining
steps `j .. task_steps` succeed (`j + n = task_steps`): exactly one
"Task completed successfully" entry is appended (timed after the final
0.1 s pause), progress is reset to 0.0, the worker performs exactly
`n + 1` step invocations and returns to the `while` test, and the status
and queues are untouched. -/
theorem run_ok_steps (t : Task) (n : ℕ) :
    ∀ (s : DashState) (i j : ℕ) (w : Worker),
      s.workers[i]? = some w → w.pc = WPC.inTask t j →
      j + n = task_steps →
      (∀ m, j ≤ m → m ≤ task_steps → (t m task_steps).isOk = true) →
      ((runFrom s (List.replicate (n + 1) (Act.work i))).agent_logs w.agent
          = s.agent_logs w.agent
              ++ [LogEntry.completed (s.clock + ((n + 1 : ℕ) : ℚ) / 10)]) ∧
      (runFrom s (List.replicate (n + 1) (Act.work i))).agent_progress w.agent = 0 ∧
      (runFrom s (List.replicate (n + 1) (Act.work i))).workers[i]?
          = some ⟨w.agent, WPC.checkLoop, w.invocations + (n + 1)⟩ ∧
      (runFrom s (List.replicate (n + 1) (Act.work i))).agent_status = s.agent_status ∧
      (runFrom s (List.replicate (n + 1) (Act.work i))).agent_queues = s.agent_queues ∧
      (runFrom s (List.replicate (n + 1) (Act.work i))).clock
          = s.clock + ((n + 1 : ℕ) : ℚ) / 10 := by
  induction n with
  | zero =>
    intro s i j w hw hpc hjn hord
    rw [Nat.add_zero] at hjn
    have hokj : (t j task_steps).isOk = true :=
      hord j (le_refl j) (le_of_eq hjn)
    cases htj : t j task_steps with
    | error e2 =>
      rw [htj] at hokj
      simp [Except.isOk, Except.toBool] at hokj
    | ok r =>
      have hge : ¬ j < task_steps := by omega
      have heq := act_work_ok_last s i j w t r hw hpc htj hge
      have hrun1 : runFrom s (List.replicate 1 (Act.work i)) = act s (Act.work i) := rfl
      obtain ⟨ag, pc, inv⟩ := w
      rw [hrun1, heq]
      refine ⟨?_, ?_, ?_, rfl, rfl, ?_⟩
      · simp [Function.update_same]
      · simp [Function.update_same]
      · simpa using get?_set_self _ hw
      · simp
  | succ n ih =>
    intro s i j w hw hpc hjn hord
    have hokj : (t j task_steps).isOk = true := by
      refine hord j (le_refl j) ?_
      omega
    cases htj : t j task_steps with
    | error e2 =>
      rw [htj] at hokj
      simp [Except.isOk, Except.toBool] at hokj
    | ok r =>
      have hlt : j < task_steps := by omega
      have heq := act_work_ok s i j w t r hw hpc htj hlt
      obtain ⟨ag, pc, inv⟩ := w
      dsimp only at hpc heq ⊢
      subst hpc
      have hw1 : (act s (Act.work i)).workers[i]?
          = some (⟨ag, WPC.inTask t (j + 1), inv + 1⟩ : Worker) := by
        rw [heq]
        simpa using get?_set_self _ hw
      have hord1 : ∀ m, j + 1 ≤ m → m ≤ task_steps → (t m task_steps).isOk = true := by
        intro m h1 h2
        refine hord m (by omega) h2
      have hjn1 : (j + 1) + n = task_steps := by omega
      have hih := ih (act s (Act.work i)) i (j + 1)
        ⟨ag, WPC.inTask t (j + 1), inv + 1⟩ hw1 rfl hjn1 hord1
      have hrun2 : runFrom s (List.replicate (n + 1 + 1) (Act.work i))
          = runFrom (act s (Act.work i)) (List.replicate (n + 1) (Act.work i)) := by
        rw [List.replicate_succ]
        rfl
      have hclk : (act s (Act.work i)).clock = s.clock + 1/10 := by
        rw [heq]
      have hlogs : (act s (Act.work i)).agent_logs = s.agent_logs := by
        rw [heq]
      have hst : (act s (Act.work i)).agent_status = s.agent_status := by
        rw [heq]
      have hqs : (act s (Act.work i)).agent_queues = s.agent_queues := by
        rw [heq]
      have harg : s.clock + 1/10 + ((n + 1 : ℕ) : ℚ)/10
          = s.clock + ((n + 1 + 1 : ℕ) : ℚ)/10 := by
        push_cast
        ring
      rw [hrun2]
      refine ⟨?_, hih.2.1, ?_, ?_, ?_, ?_⟩
      · rw [hih.1, hlogs, hclk, harg]
      · rw [hih.2.2.1]
        have hinv : inv + 1 + (n + 1) = inv + (n + 1 + 1) := by omega
        rw [hinv]
      · rw [hih.2.2.2.1, hst]
      · rw [hih.2.2.2.2.1, hqs]
      · rw [hih.2.2.2.2.2, hclk, harg]

/-- Scan steps `j, j+1, ...` (at most `fuel` of them) of task `t` for
the first failing step, returning its index and error message. -/
def firstFailFrom (t : Task) (j : ℕ) : ℕ → Option (ℕ × String)
  | 0 => none
  | fuel + 1 =>
    match t j task_steps with
    | Except.error e => some (j, e)
    | Except.ok _ => firstFailFrom t (j + 1) fuel

/-- First failing step of a task within `1 .. task_steps`, if any. -/
def firstFailure (t : Task) : Option (ℕ × String) :=
  firstFailFrom t 1 task_steps

/-- Characterisation of a successful `firstFailFrom` scan. -/
theorem firstFailFrom_some (t : Task) (fuel : ℕ) :
    ∀ j k e, firstFailFrom t j fuel = some (k, e) →
      j ≤ k ∧ k < j + fuel ∧ t k task_steps = Except.error e ∧
      ∀ m, j ≤ m → m < k → (t m task_steps).isOk = true := by
  induction fuel with
  | zero =>
    intro j k e h
    simp [firstFailFrom] at h
  | succ fuel ih =>
    intro j k e h
    rw [firstFailFrom] at h
    cases htj : t j task_steps with
    | error e2 =>
      rw [htj] at h
      simp only [Option.some.injEq, Prod.mk.injEq] at h
      obtain ⟨hk, he⟩ := h
      subst hk
      subst he
      refine ⟨le_refl j, by omega, htj, ?_⟩
      intro m h1 h2
      omega
    | ok r =>
      rw [htj] at h
      obtain ⟨h1, h2, h3, h4⟩ := ih (j + 1) k e h
      refine ⟨by omega, by omega, h3, ?_⟩
      intro m hm1 hm2
      rcases Nat.eq_or_lt_of_le hm1 with hm | hm
      · rw [← hm, htj]
        rfl
      · exact h4 m hm hm2

/-- Characterisation of an exhausted `firstFailFrom` scan. -/
theorem firstFailFrom_none (t : Task) (fuel : ℕ) :
    ∀ j, firstFailFrom t j fuel = none →
      ∀ m, j ≤ m → m < j + fuel → (t m task_steps).isOk = true := by
  induction fuel with
  | zero =>
    intro j _ m h1 h2
    omega
  | succ fuel ih =>
    intro j h m h1 h2
    rw [firstFailFrom] at h
    cases htj : t j task_steps with
    | error e2 =>
      rw [htj] at h
      simp at h
    | ok r =>
      rw [htj] at h
      rcases Nat.eq_or_lt_of_le h1 with hm | hm
      · rw [← hm, htj]
        rfl
      · exact ih (j + 1) h m hm (by omega)

/-- Outcome of one task under the worker's step loop: `some e` if some
step in `1 .. task_steps` fails first with `e`, `none` if all steps
succeed. -/
def taskOutcome (t : Task) : Option String :=
  match firstFailure t with
  | some p => some p.2
  | none => none

/-- Terminal-entry view of a log entry: `some none` for a completion
entry, `some (some e)` for a failure with message `e`, `none` for
non-terminal entries. -/
def entryOutcome : LogEntry → Option (Option String)
  | LogEntry.completed _ => some none
  | LogEntry.failed _ e => some (some e)
  | _ => none

/-- Number of step invocations the worker performs on one task: up to
and including the first failing step, or all of them. -/
def stepsOfTask (t : Task) : ℕ :=
  match firstFailure t with
  | some p => p.1
  | none => task_steps

/-- Number of worker events needed to process one task from the `while`
test: the test, the dequeue, and one event per executed step. -/
def taskWorkCount (t : Task) : ℕ :=
  stepsOfTask t + 2

/-- Seconds of simulated pause the worker spends on one task (each
successful step pauses 0.1 s; a failing step does not). -/
def taskDelta (t : Task) : ℚ :=
  match firstFailure t with
  | some p => ((p.1 - 1 : ℕ) : ℚ) / 10
  | none => (task_steps : ℚ) / 10

/-- The terminal entry the worker appends for one task dequeued at
clock `c`. -/
def taskEntry (c : ℚ) (t : Task) : LogEntry :=
  match firstFailure t with
  | some p => LogEntry.failed (c + taskDelta t) p.2
  | none => LogEntry.completed (c + taskDelta t)

/-- The terminal log suffix produced by draining a task queue whose head
is dequeued at clock `c`. -/
def drainLog (c : ℚ) : List Task → List LogEntry
  | [] => []
  | t :: rest => taskEntry c t :: drainLog (c + taskDelta t) rest

/-- Total number of worker events needed to drain a queue. -/
def drainWorkCount (ts : List Task) : ℕ :=
  (ts.map taskWorkCount).sum

/-- Draining produces one terminal entry per task. -/
theorem drainLog_length (c : ℚ) (ts : List Task) :
    (drainLog c ts).length = ts.length := by
  induction ts generalizing c with
  | nil => rfl
  | cons t rest ih => simp [drainLog, ih]

/-- The terminal entry of each task matches that task's outcome. -/
theorem taskEntry_outcome (c : ℚ) (t : Task) :
    entryOutcome (taskEntry c t) = some (taskOutcome t) := by
  unfold taskEntry taskOutcome
  cases firstFailure t with
  | none => rfl
  | some p => rfl

/-- The drained log lists the outcomes of the tasks in queue order. -/
theorem drainLog_outcomes (c : ℚ) (ts : List Task) :
    (drainLog c ts).map entryOutcome = ts.map (fun t => some (taskOutcome t)) := by
  induction ts generalizing c with
  | nil => rfl
  | cons t rest ih => simp [drainLog, taskEntry_outcome, ih]

/-- Two leading worker events followed by `n` more. -/
theorem runFrom_two_then (s : DashState) (x : Act) (n : ℕ) :
    runFrom s (List.replicate (n + 2) x) = runFrom (act (act s x) x) (List.replicate n x) := by
  rw [show n + 2 = (n + 1) + 1 from rfl, List.replicate_succ, List.replicate_succ]
  rfl

/-- Processing one task from the `while` test: with head task `t` in the
queue and the status running, `taskWorkCount t` worker events append
exactly the terminal entry of `t`, reset progress, dequeue `t`, run
exactly `stepsOfTask t` step invocations and return to the `while` test,
leaving the status untouched. -/
theorem run_one_task (s : DashState) (i : ℕ) (w : Worker) (t : Task) (rest : List Task)
    (hw : s.workers[i]? = some w) (hpc : w.pc = WPC.checkLoop)
    (hrun : s.agent_status w.agent = Status.running)
    (hq : s.agent_queues w.agent = t :: rest) :
    ((runFrom s (List.replicate (taskWorkCount t) (Act.work i))).agent_logs w.agent
        = s.agent_logs w.agent ++ [taskEntry s.clock t]) ∧
    (runFrom s (List.replicate (taskWorkCount t) (Act.work i))).agent_progress w.agent
        = 0 ∧
    (runFrom s (List.replicate (taskWorkCount t) (Act.work i))).workers[i]?
        = some ⟨w.agent, WPC.checkLoop, w.invocations + stepsOfTask t⟩ ∧
    (runFrom s (List.replicate (taskWorkCount t) (Act.work i))).agent_status
        = s.agent_status ∧
    (runFrom s (List.replicate (taskWorkCount t) (Act.work i))).agent_queues
        = Function.update s.agent_queues w.agent rest ∧
    (runFrom s (List.replicate (taskWorkCount t) (Act.work i))).clock
        = s.clock + taskDelta t := by
  obtain ⟨ag, pc, inv⟩ := w
  dsimp only at hpc hrun hq ⊢
  subst hpc
  have heq1 := act_work_check_run s i ⟨ag, WPC.checkLoop, inv⟩ hw rfl hrun
  have hw1 : (act s (Act.work i)).workers[i]? = some (⟨ag, WPC.getTask, inv⟩ : Worker) := by
    rw [heq1]
    simpa using get?_set_self _ hw
  have hq1 : (act s (Act.work i)).agent_queues ag = t :: rest := by
    rw [heq1]
    exact hq
  have heq2 := act_work_deq (act s (Act.work i)) i ⟨ag, WPC.getTask, inv⟩ t rest hw1 rfl hq1
  have hw2 : (act (act s (Act.work i)) (Act.work i)).workers[i]?
      = some (⟨ag, WPC.inTask t 1, inv⟩ : Worker) := by
    rw [heq2]
    simpa using get?_set_self _ hw1
  have hlogs2 : (act (act s (Act.work i)) (Act.work i)).agent_logs = s.agent_logs := by
    rw [heq2, heq1]
  have hst2 : (act (act s (Act.work i)) (Act.work i)).agent_status = s.agent_status := by
    rw [heq2, heq1]
  have hq2 : (act (act s (Act.work i)) (Act.work i)).agent_queues
      = Function.update s.agent_queues ag rest := by
    rw [heq2, heq1]
  have hclk2 : (act (act s (Act.work i)) (Act.work i)).clock = s.clock := by
    rw [heq2, heq1]
  cases hff : firstFailure t with
  | some p =>
    obtain ⟨k, e⟩ := p
    obtain ⟨hk1, hk2, hkerr, hkord⟩ := firstFailFrom_some t task_steps 1 k e hff
    have htwc : taskWorkCount t = k + 2 := by
      simp [taskWorkCount, stepsOfTask, hff]
    have hdelta : taskDelta t = ((k - 1 : ℕ) : ℚ) / 10 := by
      simp [taskDelta, hff]
    have hentry : taskEntry s.clock t
        = LogEntry.failed (s.clock + ((k - 1 : ℕ) : ℚ) / 10) e := by
      simp [taskEntry, hff, hdelta]
    have hord' : ∀ m, 1 ≤ m → m < 1 + (k - 1) → (t m task_steps).isOk = true := by
      intro m h1 h2
      exact hkord m h1 (by omega)
    have herr' : t (1 + (k - 1)) task_steps = Except.error e := by
      have h : 1 + (k - 1) = k := by omega
      rw [h]
      exact hkerr
    have hle' : 1 + (k - 1) ≤ task_steps := by omega
    have hfail := run_fail_steps t e (k - 1) (act (act s (Act.work i)) (Act.work i)) i 1
      ⟨ag, WPC.inTask t 1, inv⟩ hw2 rfl hord' herr' hle'
    have hn : k - 1 + 1 = k := by omega
    rw [hn] at hfail
    dsimp only at hfail
    have hrep : runFrom s (List.replicate (taskWorkCount t) (Act.work i))
        = runFrom (act (act s (Act.work i)) (Act.work i))
            (List.replicate k (Act.work i)) := by
      rw [htwc]
      exact runFrom_two_then s (Act.work i) k
    rw [hrep, hentry]
    obtain ⟨hfl, hfp, hfw, hfs, hfq, hfc⟩ := hfail
    refine ⟨?_, hfp, ?_, ?_, ?_, ?_⟩
    · rw [hfl, hlogs2, hclk2]
    · rw [hfw]
      simp [stepsOfTask, hff, hn]
    · rw [hfs, hst2]
    · rw [hfq, hq2]
    · rw [hfc, hclk2, hdelta]
  | none =>
    have htwc : taskWorkCount t = task_steps + 2 := by
      simp [taskWorkCount, stepsOfTask, hff]
    have hdelta : taskDelta t = ((task_steps : ℕ) : ℚ) / 10 := by
      simp [taskDelta, hff]
    have hentry : taskEntry s.clock t
        = LogEntry.completed (s.clock + ((task_steps : ℕ) : ℚ) / 10) := by
      simp [taskEntry, hff, hdelta]
    have hord' : ∀ m, 1 ≤ m → m ≤ task_steps → (t m task_steps).isOk = true := by
      intro m h1 h2
      refine firstFailFrom_none t task_steps 1 hff m h1 ?_
      omega
    have hjn : 1 + (task_steps - 1) = task_steps := by decide
    have hok := run_ok_steps t (task_steps - 1) (act (act s (Act.work i)) (Act.work i)) i 1
      ⟨ag, WPC.inTask t 1, inv⟩ hw2 rfl hjn hord'
    have hn : task_steps - 1 + 1 = task_steps := by decide
    rw [hn] at hok
    dsimp only at hok
    have hrep : runFrom s (List.replicate (taskWorkCount t) (Act.work i))
        = runFrom (act (act s (Act.work i)) (Act.work i))
            (List.replicate task_steps (Act.work i)) := by
      rw [htwc]
      exact runFrom_two_then s (Act.work i) task_steps
    rw [hrep, hentry]
    obtain ⟨hfl, hfp, hfw, hfs, hfq, hfc⟩ := hok
    refine ⟨?_, hfp, ?_, ?_, ?_, ?_⟩
    · rw [hfl, hlogs2, hclk2]
    · rw [hfw]
      simp [stepsOfTask, hff]
    · rw [hfs, hst2]
    · rw [hfq, hq2]
    · rw [hfc, hclk2, hdelta]

/-- Draining a queue of tasks: with the status running, the worker
appends exactly the terminal entries of the queued tasks in queue order,
empties the queue, performs their step invocations, and returns to the
`while` test with the status untouched. -/
theorem run_drain (ts : List Task) :
    ∀ (s : DashState) (i : ℕ) (w : Worker),
      s.workers[i]? = some w → w.pc = WPC.checkLoop →
      s.agent_status w.agent = Status.running →
      s.agent_queues w.agent = ts →
      ((runFrom s (List.replicate (drainWorkCount ts) (Act.work i))).agent_logs w.agent
          = s.agent_logs w.agent ++ drainLog s.clock ts) ∧
      (runFrom s (List.replicate (drainWorkCount ts) (Act.work i))).agent_queues w.agent
          = [] ∧
      (runFrom s (List.replicate (drainWorkCount ts) (Act.work i))).workers[i]?
          = some ⟨w.agent, WPC.checkLoop, w.invocations + (ts.map stepsOfTask).sum⟩ ∧
      (runFrom s (List.replicate (drainWorkCount ts) (Act.work i))).agent_status
          = s.agent_status ∧
      (runFrom s (List.replicate (drainWorkCount ts) (Act.work i))).clock
          = s.clock + (ts.map taskDelta).sum := by
  induction ts with
  | nil =>
    intro s i w hw hpc hrun hq
    obtain ⟨ag, pc, inv⟩ := w
    dsimp only at hpc hrun hq ⊢
    subst hpc
    refine ⟨?_, hq, ?_, rfl, ?_⟩
    · simp [drainWorkCount, drainLog, runFrom]
    · simpa [drainWorkCount, runFrom] using hw
    · simp [drainWorkCount, runFrom]
  | cons t rest ih =>
    intro s i w hw hpc hrun hq
    obtain ⟨ag, pc, inv⟩ := w
    dsimp only at hpc hrun hq ⊢
    subst hpc
    have h1 := run_one_task s i ⟨ag, WPC.checkLoop, inv⟩ t rest hw rfl hrun hq
    dsimp only at h1
    obtain ⟨h1l, h1p, h1w, h1s, h1q, h1c⟩ := h1
    have hrun2 : (runFrom s (List.replicate (taskWorkCount t) (Act.work i))).agent_status ag
        = Status.running := by
      rw [h1s]
      exact hrun
    have hq2 : (runFrom s (List.replicate (taskWorkCount t) (Act.work i))).agent_queues ag
        = rest := by
      rw [h1q]
      simp [Function.update_same]
    have hih := ih (runFrom s (List.replicate (taskWorkCount t) (Act.work i))) i
      ⟨ag, WPC.checkLoop, inv + stepsOfTask t⟩ h1w rfl hrun2 hq2
    dsimp only at hih
    obtain ⟨hil, hiq, hiw, his, hic⟩ := hih
    have hsplit : runFrom s (List.replicate (drainWorkCount (t :: rest)) (Act.work i))
        = runFrom (runFrom s (List.replicate (taskWorkCount t) (Act.work i)))
            (List.replicate (drainWorkCount rest) (Act.work i)) := by
      have hdw : drainWorkCount (t :: rest) = taskWorkCount t + drainWorkCount rest := by
        simp [drainWorkCount]
      rw [hdw]
      unfold runFrom
      rw [List.replicate_add, List.foldl_append]
    rw [hsplit]
    refine ⟨?_, hiq, ?_, ?_, ?_⟩
    · rw [hil, h1l, h1c]
      simp [drainLog, List.append_assoc]
    · rw [hiw]
      have hsum : inv + stepsOfTask t + (rest.map stepsOfTask).sum
          = inv + ((t :: rest).map stepsOfTask).sum := by
        simp
        omega
      rw [hsum]
    · rw [his, h1s]
    · rw [hic, h1c]
      simp [List.map_cons, List.sum_cons]
      ring

/-- Folding `stop_bound_act` over an arbitrary event sequence. -/
theorem stop_bound_fold (acts : List Act) :
    ∀ (s : DashState) (a : Agent) (i : ℕ),
      s.agent_status a ≠ Status.running →
      (∀ e ∈ acts, e ≠ Act.start a) →
      workerAgentAt s i = some a → workerWFB s i = true →
      workerInv (runFrom s acts) i + budgetAt (runFrom s acts) i
        ≤ workerInv s i + budgetAt s i := by
  induction acts with
  | nil =>
    intro s a i _ _ _ _
    simp [runFrom]
  | cons e rest ih =>
    intro s a i hs hna hag hwf
    have h1 := stop_bound_act s e a i hs (hna e (List.mem_cons_self e rest)) hag hwf
    have h2 := ih (act s e) a i h1.1 (fun e' he' => hna e' (List.mem_cons_of_mem e he'))
      h1.2.1 h1.2.2.1
    have hr : runFrom s (e :: rest) = runFrom (act s e) rest := rfl
    rw [hr]
    exact le_trans h2 h1.2.2.2

/-- A wellformed program counter has budget at most one whole task. -/
theorem budget_le_of_wf (pc : WPC) (h : wfB pc = true) : budget pc ≤ task_steps := by
  cases pc with
  | inTask t k =>
    have hk : 1 ≤ k ∧ k ≤ task_steps := by
      simpa [wfB, Bool.and_eq_true, decide_eq_true_iff] using h
    simp only [budget]
    omega
  | checkLoop => simp [budget]
  | getTask => simp [budget]
  | done => simp [budget]

/-- C2 (amended): cancellation is cooperative, but the status flag is
re-read only at the `while` test of `agent_worker` — never at a step
boundary — so after stop is issued (and absent a restart of the agent),
a worker thread of that agent can still perform up to one whole task's
worth of step invocations (`task_steps` = 20, about 3 s of simulated
work, plus the idle-wait timeout and idle sleep on the empty path)
before it re-checks the flag and exits; it never exceeds that bound. -/
theorem stop_cancellation_bounded (s : DashState) (acts : List Act) (a : Agent) (i : ℕ)
    (hs : s.agent_status a ≠ Status.running)
    (hns : ∀ e ∈ acts, e ≠ Act.start a)
    (hag : workerAgentAt s i = some a)
    (hwf : workerWFB s i = true) :
    workerInv (runFrom s acts) i ≤ workerInv s i + task_steps := by
  have h := stop_bound_fold acts s a i hs hns hag hwf
  have hb : budgetAt s i ≤ task_steps := by
    cases hg : s.workers[i]? with
    | none => simp [budgetAt, hg]
    | some w =>
      have hwfw : wfB w.pc = true := by
        simpa [workerWFB, hg] using hwf
      simpa [budgetAt, hg] using budget_le_of_wf w.pc hwfw
  omega

/-- Interleaving that restarts the Listener right after a stop, while the
first worker thread has already passed the `while` test and sits inside
`queue.get`: start; worker 0 enters the loop body; stop; start again
(spawning worker 1); worker 1 enters the loop body; worker 0 hits the
1 s timeout, records a heartbeat and re-tests the (again running) status,
re-entering the loop body. -/
def c3trace : List Act :=
  [Act.start Agent.Listener, Act.work 0, Act.stop Agent.Listener,
   Act.start Agent.Listener, Act.work 1, Act.work 0, Act.work 0]

/-- C3: the claim fails on the code.  After a stop immediately followed
by a start, the old worker thread — which last observed the status while
it was still "running" — passes the `while` test again once the status is
reset to "running", so the agent ends up with two live worker threads,
both sitting at the dequeue call of the same queue. -/
theorem two_workers_reachable_after_stop_start :
    activeWorkerCount (run c3trace) Agent.Listener = 2 ∧
    workerAtGet (run c3trace) 0 = true ∧
    workerAtGet (run c3trace) 1 = true ∧
    (run c3trace).agent_status Agent.Listener = Status.running := by
  refine ⟨by decide, by decide, by decide, by decide⟩

/-- Start the Listener, submit one (never-failing) task, and let the
worker dequeue it and stand at step 1 of the step loop. -/
def c2pre : List Act :=
  [Act.start Agent.Listener,
   Act.submit Agent.Listener "Summarize Text" (some "hello") none,
   Act.work 0, Act.work 0]

/-- C2: counterexample to the claimed stop latency.  Stop is issued while
the worker is at step 1 of a 20-step task (0 step invocations performed);
the worker then performs two further full step invocations — and in fact
all 20 (fifth conjunct), exiting only at the following `while` test
(sixth conjunct) — because the `for` loop of `agent_worker` never checks
the status, so the bound "longer of the idle-wait timeout and one
simulated-step pause" does not hold. -/
theorem worker_runs_whole_task_after_stop :
    (run (c2pre ++ [Act.stop Agent.Listener])).agent_status Agent.Listener
        = Status.stopped ∧
    workerInv (run (c2pre ++ [Act.stop Agent.Listener])) 0 = 0 ∧
    workerInv (run (c2pre ++ [Act.stop Agent.Listener, Act.work 0, Act.work 0])) 0 = 2 ∧
    workerBusy (run (c2pre ++ [Act.stop Agent.Listener, Act.work 0, Act.work 0])) 0 = true ∧
    workerInv (run (c2pre ++ Act.stop Agent.Listener :: List.replicate 20 (Act.work 0))) 0
        = 20 ∧
    workerBusy
        (run (c2pre ++ Act.stop Agent.Listener ::
          (List.replicate 20 (Act.work 0) ++ [Act.work 0]))) 0 = false := by
  refine ⟨by decide, by decide, by decide, by decide, by decide, by decide⟩

/-- Witness for `stop_cancellation_bounded`: at the concrete post-stop
state of `c2pre` (worker 0 mid-task), 25 further worker steps stay
within one task's worth of invocations. -/
theorem stop_cancellation_bounded_witness :
    (run (c2pre ++ [Act.stop Agent.Listener])).agent_status Agent.Listener
        ≠ Status.running ∧
    workerInv
        (runFrom (run (c2pre ++ [Act.stop Agent.Listener]))
          (List.replicate 25 (Act.work 0))) 0
      ≤ workerInv (run (c2pre ++ [Act.stop Agent.Listener])) 0 + task_steps :=
  ⟨by decide,
   stop_cancellation_bounded _ _ Agent.Listener 0 (by decide) (by decide) (by decide)
     (by decide)⟩

/-- C4: with the worker at step 1 of task `t`, if steps below `k` succeed
and step `k` (within `1 .. task_steps`) fails with `e`, then after `k`
worker events the worker has appended exactly one log entry — the
"Task failed" entry, whose rendered string has the claimed form (second
conjunct) — reset progress to 0.0, performed exactly `k` step invocations
(skipping steps `k+1 .. task_steps`), appended no "completed" entry, and
returned to the `while` test (the loop did not terminate: with the status
still running, the next worker event re-enters the dequeue). -/
theorem task_failure_is_isolated (s : DashState) (i k : ℕ) (w : Worker) (t : Task)
    (e : String)
    (hw : s.workers[i]? = some w) (hpc : w.pc = WPC.inTask t 1)
    (hk1 : 1 ≤ k) (hk2 : k ≤ task_steps)
    (hok : ∀ m, m < k → 1 ≤ m → (t m task_steps).isOk = true)
    (herr : t k task_steps = Except.error e) :
    ((runFrom s (List.replicate k (Act.work i))).agent_logs w.agent
        = s.agent_logs w.agent
            ++ [LogEntry.failed (s.clock + ((k - 1 : ℕ) : ℚ) / 10) e]) ∧
    (render (LogEntry.failed (s.clock + ((k - 1 : ℕ) : ℚ) / 10) e)
        = "[" ++ fmtHMS (s.clock + ((k - 1 : ℕ) : ℚ) / 10) ++ "] Task failed: " ++ e) ∧
    (runFrom s (List.replicate k (Act.work i))).agent_progress w.agent = 0 ∧
    workerInv (runFrom s (List.replicate k (Act.work i))) i = w.invocations + k ∧
    workerAtCheck (runFrom s (List.replicate k (Act.work i))) i = true ∧
    (runFrom s (List.replicate k (Act.work i))).agent_status = s.agent_status ∧
    (s.agent_status w.agent = Status.running →
      workerAtGet (act (runFrom s (List.replicate k (Act.work i))) (Act.work i)) i
        = true) := by
  obtain ⟨ag, pc, inv⟩ := w
  dsimp only at hpc ⊢
  subst hpc
  have hord' : ∀ m, 1 ≤ m → m < 1 + (k - 1) → (t m task_steps).isOk = true := by
    intro m h1 h2
    exact hok m (by omega) h1
  have herr' : t (1 + (k - 1)) task_steps = Except.error e := by
    have h : 1 + (k - 1) = k := by omega
    rw [h]
    exact herr
  have hle' : 1 + (k - 1) ≤ task_steps := by omega
  have hfail := run_fail_steps t e (k - 1) s i 1 ⟨ag, WPC.inTask t 1, inv⟩ hw rfl
    hord' herr' hle'
  have hn : k - 1 + 1 = k := by omega
  rw [hn] at hfail
  dsimp only at hfail
  obtain ⟨hfl, hfp, hfw, hfs, hfq, hfc⟩ := hfail
  refine ⟨hfl, rfl, hfp, ?_, ?_, hfs, ?_⟩
  · simp [workerInv, hfw]
  · simp [workerAtCheck, hfw]
  · intro hr
    have hr2 : (runFrom s (List.replicate k (Act.work i))).agent_status ag
        = Status.running := by
      rw [hfs]
      exact hr
    have heqc := act_work_check_run (runFrom s (List.replicate k (Act.work i))) i
      ⟨ag, WPC.checkLoop, inv + k⟩ hfw rfl hr2
    rw [heqc]
    have hset := get?_set_self
      (⟨ag, WPC.getTask, inv + k⟩ : Worker) hfw
    simp [workerAtGet, hset]

/-- A task that always fails at step 3. -/
def demoFailTask : Task :=
  fun j _ => if j = 3 then Except.error "boom" else Except.ok "r"

/-- A running Listener whose worker stands at step 1 of `demoFailTask`. -/
def demoMidState : DashState :=
  { initState with
      agent_status := Function.update initState.agent_status Agent.Listener Status.running,
      workers := [⟨Agent.Listener, WPC.inTask demoFailTask 1, 0⟩] }

/-- Witness for `task_failure_is_isolated`: `demoFailTask` fails at step
3; after 3 worker events the Listener log gained exactly the failure
entry, progress is 0, and the worker is back at the `while` test. -/
theorem task_failure_is_isolated_witness :
    ((runFrom demoMidState (List.replicate 3 (Act.work 0))).agent_logs Agent.Listener
        = demoMidState.agent_logs Agent.Listener
            ++ [LogEntry.failed (demoMidState.clock + ((3 - 1 : ℕ) : ℚ) / 10) "boom"]) ∧
    (runFrom demoMidState (List.replicate 3 (Act.work 0))).agent_progress Agent.Listener
        = 0 ∧
    workerInv (runFrom demoMidState (List.replicate 3 (Act.work 0))) 0 = 0 + 3 ∧
    workerAtCheck (runFrom demoMidState (List.replicate 3 (Act.work 0))) 0 = true := by
  have h := task_failure_is_isolated demoMidState 0 3
    ⟨Agent.Listener, WPC.inTask demoFailTask 1, 0⟩ demoFailTask "boom"
    rfl rfl (by decide) (by decide) (by decide) rfl
  exact ⟨h.1, h.2.2.1, h.2.2.2.1, h.2.2.2.2.1⟩

/-- C5: with agent queue `ts` (the tasks in submission order: each valid
submission appends its `make_task` closure at the tail, last conjunct),
letting the worker run until the queue is drained appends exactly
`ts.length` terminal entries — one per task, each a "completed" or
"failed" entry whose outcome is its task's outcome, in queue order — and
empties the queue, returning the worker to the `while` test. -/
theorem tasks_run_in_submission_order (s : DashState) (i : ℕ) (w : Worker)
    (ts : List Task)
    (hw : s.workers[i]? = some w) (hpc : w.pc = WPC.checkLoop)
    (hrun : s.agent_status w.agent = Status.running)
    (hq : s.agent_queues w.agent = ts) :
    ((runFrom s (List.replicate (drainWorkCount ts) (Act.work i))).agent_logs w.agent
        = s.agent_logs w.agent ++ drainLog s.clock ts) ∧
    (drainLog s.clock ts).length = ts.length ∧
    ((drainLog s.clock ts).map entryOutcome
        = ts.map (fun t => some (taskOutcome t))) ∧
    (runFrom s (List.replicate (drainWorkCount ts) (Act.work i))).agent_queues w.agent
        = [] ∧
    workerAtCheck (runFrom s (List.replicate (drainWorkCount ts) (Act.work i))) i
        = true ∧
    (∀ (s3 : DashState) (ty c : String), truthyInput (some c) = true →
      (controlSubmit s3 w.agent ty (some c) none).agent_queues w.agent
        = s3.agent_queues w.agent ++ [make_task ty c]) := by
  have h := run_drain ts s i w hw hpc hrun hq
  refine ⟨h.1, drainLog_length s.clock ts, drainLog_outcomes s.clock ts, h.2.1, ?_, ?_⟩
  · simp [workerAtCheck, h.2.2.1]
  · intro s3 ty c hc
    simp [controlSubmit, hc, Function.update_same]

/-- A task built by `make_task`, which never fails. -/
def demoOkTask : Task :=
  make_task "Summarize Text" "hello world"

/-- A running Listener with two queued tasks and its worker at the
`while` test. -/
def demoRunState : DashState :=
  { initState with
      agent_status := Function.update initState.agent_status Agent.Listener Status.running,
      agent_queues :=
        Function.update initState.agent_queues Agent.Listener [demoOkTask, demoFailTask],
      workers := [⟨Agent.Listener, WPC.checkLoop, 0⟩] }

/-- Witness for `tasks_run_in_submission_order`: draining the two-task
queue of `demoRunState` appends exactly its two terminal entries in
order and empties the queue. -/
theorem tasks_run_in_submission_order_witness :
    ((runFrom demoRunState
          (List.replicate (drainWorkCount [demoOkTask, demoFailTask]) (Act.work 0))).agent_logs
        Agent.Listener
        = demoRunState.agent_logs Agent.Listener
            ++ drainLog demoRunState.clock [demoOkTask, demoFailTask]) ∧
    (drainLog demoRunState.clock [demoOkTask, demoFailTask]).length = 2 ∧
    (runFrom demoRunState
          (List.replicate (drainWorkCount [demoOkTask, demoFailTask]) (Act.work 0))).agent_queues
        Agent.Listener = [] := by
  have h := tasks_run_in_submission_order demoRunState 0
    ⟨Agent.Listener, WPC.checkLoop, 0⟩ [demoOkTask, demoFailTask]
    rfl rfl (by simp [demoRunState, Function.update_same])
    (by simp [demoRunState, Function.update_same])
  exact ⟨h.1, h.2.1, h.2.2.2.1⟩

/-- Global invariant for the progress property: every agent's progress
lies in `[0, 1]` and every spawned worker's program counter is
wellformed. -/
def ProgressInv (s : DashState) : Prop :=
  (∀ a, 0 ≤ s.agent_progress a ∧ s.agent_progress a ≤ 1) ∧
  (∀ w ∈ s.workers, wfB w.pc = true)

/-- One worker-loop step writes only progress values in `[0, 1]`
(`step / task_steps` with a wellformed step index, or `0.0`) and keeps
the program counter wellformed. -/
theorem workerStep_progress (s : DashState) (w : Worker)
    (hp : ∀ a, 0 ≤ s.agent_progress a ∧ s.agent_progress a ≤ 1)
    (hwf : wfB w.pc = true) :
    (∀ a, 0 ≤ (workerStep s w).1.agent_progress a ∧
      (workerStep s w).1.agent_progress a ≤ 1) ∧
    wfB (workerStep s w).2.pc = true := by
  rcases w with ⟨ag, pc, inv⟩
  dsimp only at hwf
  cases pc with
  | checkLoop =>
    by_cases h : s.agent_status ag = Status.running <;> simp [workerStep, h, wfB, hp]
  | getTask =>
    cases h : s.agent_queues ag with
    | nil => simp [workerStep, h, wfB, hp]
    | cons t rest => simp [workerStep, h, wfB, task_steps, hp]
  | inTask t k =>
    have hk : 1 ≤ k ∧ k ≤ task_steps := by
      simpa [wfB, Bool.and_eq_true, decide_eq_true_iff] using hwf
    have hdiv : 0 ≤ (k : ℚ) / (task_steps : ℚ) ∧ (k : ℚ) / (task_steps : ℚ) ≤ 1 := by
      constructor
      · positivity
      · rw [div_le_one (by norm_num [task_steps])]
        have : (k : ℚ) ≤ (task_steps : ℚ) := by
          exact_mod_cast hk.2
        simpa [task_steps] using this
    cases h : t k task_steps with
    | ok r =>
      by_cases hlt : k < task_steps
      · simp only [workerStep, h, hlt, if_true]
        constructor
        · intro a
          by_cases ha : a = ag
          · subst ha
            simpa [Function.update_same] using hdiv
          · simpa [Function.update_noteq ha] using hp a
        · have : 1 ≤ k + 1 ∧ k + 1 ≤ task_steps := by omega
          simp [wfB, this.1, this.2]
      · simp only [workerStep, h, hlt, if_false]
        constructor
        · intro a
          by_cases ha : a = ag
          · subst ha
            simp [Function.update_same]
          · simpa [Function.update_noteq ha] using hp a
        · simp [wfB]
    | error e =>
      simp only [workerStep, h]
      constructor
      · intro a
        by_cases ha : a = ag
        · subst ha
          simp [Function.update_same]
        · simpa [Function.update_noteq ha] using hp a
      · simp [wfB]
  | done => simp [workerStep, wfB, hp]

/-- Every event of the system preserves `ProgressInv`. -/
theorem progressInv_act (s : DashState) (e : Act) (h : ProgressInv s) :
    ProgressInv (act s e) := by
  obtain ⟨hp, hwf⟩ := h
  cases e with
  | start b =>
    by_cases hb : s.agent_status b = Status.running
    · simpa [act, controlStart, hb] using ⟨hp, hwf⟩
    · constructor
      · simpa [act, controlStart, hb] using hp
      · intro w hw
        simp only [act, controlStart, hb, if_false, List.mem_append,
          List.mem_singleton] at hw
        rcases hw with hw | hw
        · exact hwf w hw
        · subst hw
          simp [wfB]
  | stop b =>
    have hfields : (act s (Act.stop b)).agent_progress = s.agent_progress ∧
        (act s (Act.stop b)).workers = s.workers := by
      simp only [act, controlStop]
      split <;> exact ⟨rfl, rfl⟩
    rw [ProgressInv, hfields.1, hfields.2]
    exact ⟨hp, hwf⟩
  | submit b ty c f =>
    have hfields : (act s (Act.submit b ty c f)).agent_progress = s.agent_progress ∧
        (act s (Act.submit b ty c f)).workers = s.workers := by
      simp only [act, controlSubmit]
      split <;> exact ⟨rfl, rfl⟩
    rw [ProgressInv, hfields.1, hfields.2]
    exact ⟨hp, hwf⟩
  | tick d =>
    exact ⟨hp, hwf⟩
  | work j =>
    cases hgj : s.workers[j]? with
    | none =>
      simp only [act, hgj]
      exact ⟨hp, hwf⟩
    | some wj =>
      have hwfj : wfB wj.pc = true := hwf wj (List.getElem?_mem hgj)
      have hws := workerStep_progress s wj hp hwfj
      have hact : act s (Act.work j)
          = { (workerStep s wj).1 with
                workers := (workerStep s wj).1.workers.set j (workerStep s wj).2 } := by
        simp [act, hgj]
      rw [ProgressInv, hact]
      constructor
      · exact hws.1
      · intro w' hw'
        rw [workerStep_fst_workers] at hw'
        rcases List.mem_or_eq_of_mem_set hw' with hmem | heq
        · exact hwf w' hmem
        · rw [heq]
          exact hws.2

/-- `ProgressInv` holds along every run from an invariant state. -/
theorem progressInv_runFrom (acts : List Act) :
    ∀ s : DashState, ProgressInv s → ProgressInv (runFrom s acts) := by
  induction acts with
  | nil =>
    intro s h
    exact h
  | cons e rest ih =>
    intro s h
    exact ih (act s e) (progressInv_act s e h)

/-- `ProgressInv` holds initially. -/
theorem progressInv_init : ProgressInv initState := by
  constructor
  · intro a
    simp [initState]
  · intro w hw
    simp [initState] at hw

/-- C6: redundant control operations are no-ops.  A second start issued
while the agent is already running changes nothing at all (first
conjunct, in particular no second "started" entry and no second thread);
a first start from a non-running status sets the status running and
appends exactly one "started" entry (second conjunct); a start while
running is the identity (third conjunct); and a stop while not running is
the identity (fourth conjunct). -/
theorem start_stop_redundant_noop (s : DashState) (a : Agent) :
    act (act s (Act.start a)) (Act.start a) = act s (Act.start a) ∧
    (s.agent_status a ≠ Status.running →
      (act s (Act.start a)).agent_logs a
          = s.agent_logs a ++ [LogEntry.started s.clock] ∧
      (act s (Act.start a)).agent_status a = Status.running) ∧
    (s.agent_status a = Status.running → act s (Act.start a) = s) ∧
    (s.agent_status a ≠ Status.running → act s (Act.stop a) = s) := by
  refine ⟨?_, ?_, ?_, ?_⟩
  · by_cases h : s.agent_status a = Status.running
    · have h1 : act s (Act.start a) = s := by
        simp [act, controlStart, h]
      rw [h1]
      simp [act, controlStart, h]
    · have h2 : (act s (Act.start a)).agent_status a = Status.running := by
        simp [act, controlStart, h, Function.update_same]
      show controlStart (act s (Act.start a)) a = act s (Act.start a)
      simp [controlStart, h2]
  · intro h
    constructor
    · simp [act, controlStart, h, Function.update_same]
    · simp [act, controlStart, h, Function.update_same]
  · intro h
    simp [act, controlStart, h]
  · intro h
    simp [act, controlStop, h]

/-- Witness for `start_stop_redundant_noop` at the initial (idle)
Listener. -/
theorem start_stop_redundant_noop_witness :
    initState.agent_status Agent.Listener ≠ Status.running ∧
    act (act initState (Act.start Agent.Listener)) (Act.start Agent.Listener)
        = act initState (Act.start Agent.Listener) ∧
    (act initState (Act.start Agent.Listener)).agent_logs Agent.Listener
        = initState.agent_logs Agent.Listener ++ [LogEntry.started initState.clock] ∧
    act initState (Act.stop Agent.Listener) = initState := by
  have h := start_stop_redundant_noop initState Agent.Listener
  have hn : initState.agent_status Agent.Listener ≠ Status.running := by
    decide
  exact ⟨hn, h.1, (h.2.1 hn).1, h.2.2.2 hn⟩

/-- C7: submitting with absent or empty text content (and no uploaded
file) is rejected silently: the handler leaves the whole session state —
queues, logs, status, everything — unchanged. -/
theorem empty_submit_rejected (s : DashState) (a : Agent) (ty : String)
    (c : Option String) (hc : c = none ∨ c = some "") :
    act s (Act.submit a ty c none) = s := by
  rcases hc with hc | hc <;> subst hc <;> simp [act, controlSubmit, truthyInput]

/-- Witness for `empty_submit_rejected` with absent content on the
initial state. -/
theorem empty_submit_rejected_witness :
    act initState (Act.submit Agent.Listener "Translate Text" none none) = initState ∧
    act initState (Act.submit Agent.Listener "Translate Text" (some "") none)
        = initState :=
  ⟨empty_submit_rejected initState Agent.Listener "Translate Text" none (Or.inl rfl),
   empty_submit_rejected initState Agent.Listener "Translate Text" (some "")
     (Or.inr rfl)⟩

/-- A string all of whose characters are stripped whitespace strips to
the empty string. -/
theorem pyStrip_all_space (c : String) (hc : ∀ ch ∈ c.data, pySpace ch = true) :
    pyStrip c = "" := by
  unfold pyStrip
  rw [List.dropWhile_eq_nil_iff.mpr hc]
  rfl

/-- C10: a text submission consisting only of whitespace characters
(with no uploaded file) fails the `task_input.strip()` truthiness test
and is rejected exactly like an empty one: the whole session state is
unchanged. -/
theorem whitespace_submit_rejected (s : DashState) (a : Agent) (ty : String)
    (c : String) (hc : ∀ ch ∈ c.data, pySpace ch = true) :
    act s (Act.submit a ty (some c) none) = s := by
  have hs : truthyInput (some c) = false := by
    unfold truthyInput
    by_cases h0 : c = ""
    · simp [h0]
    · simp [h0, pyStrip_all_space c hc]
  simp [act, controlSubmit, hs]

/-- Witness for `whitespace_submit_rejected` on a space-and-tab input. -/
theorem whitespace_submit_rejected_witness :
    (∀ ch ∈ (" \t" : String).data, pySpace ch = true) ∧
    act initState (Act.submit Agent.Planner "Summarize Text" (some " \t") none)
        = initState :=
  ⟨by decide,
   whitespace_submit_rejected initState Agent.Planner "Summarize Text" " \t"
     (by decide)⟩

/-- C8: in every reachable state (any event sequence from the initial
session state) every agent's progress lies in `[0.0, 1.0]` (first part);
and whenever a worker event finishes a task — it was mid-task and the
worker is back at the `while` test afterwards, which happens exactly on
the failing step or the final successful step — the agent's progress in
the resulting state is 0.0 (second part): progress is reset before the
worker proceeds. -/
theorem progress_bounded_and_reset :
    (∀ (acts : List Act) (a : Agent),
      0 ≤ (run acts).agent_progress a ∧ (run acts).agent_progress a ≤ 1) ∧
    (∀ (s : DashState) (i : ℕ) (w : Worker) (t : Task) (j : ℕ),
      s.workers[i]? = some w → w.pc = WPC.inTask t j →
      workerAtCheck (act s (Act.work i)) i = true →
      (act s (Act.work i)).agent_progress w.agent = 0) := by
  constructor
  · intro acts a
    exact (progressInv_runFrom acts initState progressInv_init).1 a
  · intro s i w t j hw hpc hchk
    obtain ⟨ag, pc, inv⟩ := w
    dsimp only at hpc ⊢
    subst hpc
    cases htj : t j task_steps with
    | ok r =>
      by_cases hlt : j < task_steps
      · have heq := act_work_ok s i j ⟨ag, WPC.inTask t j, inv⟩ t r hw rfl htj hlt
        rw [heq] at hchk
        have hset := get?_set_self
          (⟨ag, WPC.inTask t (j + 1), inv + 1⟩ : Worker) hw
        simp [workerAtCheck, hset] at hchk
      · have heq := act_work_ok_last s i j ⟨ag, WPC.inTask t j, inv⟩ t r hw rfl htj hlt
        rw [heq]
        simp [Function.update_same]
    | error e =>
      have heq := act_work_err s i j ⟨ag, WPC.inTask t j, inv⟩ t e hw rfl htj
      rw [heq]
      simp [Function.update_same]

/-- A running Listener whose worker stands at the failing step 3 of
`demoFailTask`. -/
def demoStepState : DashState :=
  { initState with
      agent_status := Function.update initState.agent_status Agent.Listener Status.running,
      workers := [⟨Agent.Listener, WPC.inTask demoFailTask 3, 2⟩] }

/-- Witness for `progress_bounded_and_reset`: the bounds hold in the
initial state, and the task-finishing event of `demoStepState` leaves
progress 0. -/
theorem progress_bounded_and_reset_witness :
    (0 ≤ (run []).agent_progress Agent.Listener ∧
      (run []).agent_progress Agent.Listener ≤ 1) ∧
    (act demoStepState (Act.work 0)).agent_progress Agent.Listener = 0 := by
  have h := progress_bounded_and_reset
  exact ⟨h.1 [] Agent.Listener,
    h.2 demoStepState 0 ⟨Agent.Listener, WPC.inTask demoFailTask 3, 2⟩ demoFailTask 3
      rfl rfl (by decide)⟩

/-- Global invariant for the heartbeat property: per agent, the recorded
heartbeat-write times form a non-decreasing chain bounded by the clock,
and the stored `last_heartbeat` value is the `strftime` image of the most
recent write time. -/
def HeartbeatInv (s : DashState) : Prop :=
  ∀ a, List.Chain' (fun x y => x ≤ y) (s.hbTimes a) ∧
    (∀ x ∈ s.hbTimes a, x ≤ s.clock) ∧
    s.last_heartbeat a = Option.map secondsOfDay (s.hbTimes a).getLast?

/-- Appending a value no smaller than every element keeps the chain. -/
theorem chain_append_le (l : List ℚ) (c : ℚ)
    (hch : List.Chain' (fun x y => x ≤ y) l) (hb : ∀ x ∈ l, x ≤ c) :
    List.Chain' (fun x y => x ≤ y) (l ++ [c]) := by
  rw [List.chain'_append]
  refine ⟨hch, List.chain'_singleton c, ?_⟩
  intro x hx y hy
  simp only [List.head?_cons, Option.mem_def, Option.some.injEq] at hy
  subst hy
  exact hb x (List.mem_of_mem_getLast? hx)

/-- A worker-loop step either leaves the heartbeat data untouched (with
the clock not decreasing), or performs exactly the source's heartbeat
write: it stores `strftime` of the current clock, appends the current
clock to the ghost history, and then sleeps a non-negative amount. -/
theorem workerStep_heartbeat_cases (s : DashState) (w : Worker) :
    ((workerStep s w).1.hbTimes = s.hbTimes ∧
      (workerStep s w).1.last_heartbeat = s.last_heartbeat ∧
      s.clock ≤ (workerStep s w).1.clock) ∨
    (∃ d : ℚ, 0 ≤ d ∧
      (workerStep s w).1.hbTimes
          = Function.update s.hbTimes w.agent (s.hbTimes w.agent ++ [s.clock]) ∧
      (workerStep s w).1.last_heartbeat
          = Function.update s.last_heartbeat w.agent (some (secondsOfDay s.clock)) ∧
      (workerStep s w).1.clock = s.clock + d) := by
  rcases w with ⟨ag, pc, inv⟩
  cases pc with
  | checkLoop =>
    left
    by_cases h : s.agent_status ag = Status.running <;> simp [workerStep, h]
  | getTask =>
    cases hq : s.agent_queues ag with
    | nil =>
      right
      refine ⟨3/2, by norm_num, ?_, ?_, ?_⟩ <;> simp [workerStep, hq]
    | cons t rest =>
      left
      simp [workerStep, hq]
  | inTask t k =>
    cases htj : t k task_steps with
    | ok r =>
      right
      refine ⟨1/10, by norm_num, ?_, ?_, ?_⟩ <;>
        by_cases hlt : k < task_steps <;> simp [workerStep, htj, hlt]
    | error e =>
      left
      simp [workerStep, htj]
  | done =>
    left
    simp [workerStep]

/-- Every event of the system preserves `HeartbeatInv`. -/
theorem heartbeatInv_act (s : DashState) (e : Act) (h : HeartbeatInv s) :
    HeartbeatInv (act s e) := by
  cases e with
  | start b =>
    have hf : (act s (Act.start b)).hbTimes = s.hbTimes ∧
        (act s (Act.start b)).last_heartbeat = s.last_heartbeat ∧
        (act s (Act.start b)).clock = s.clock := by
      simp only [act, controlStart]
      split <;> exact ⟨rfl, rfl, rfl⟩
    intro a
    rw [hf.1, hf.2.1, hf.2.2]
    exact h a
  | stop b =>
    have hf : (act s (Act.stop b)).hbTimes = s.hbTimes ∧
        (act s (Act.stop b)).last_heartbeat = s.last_heartbeat ∧
        (act s (Act.stop b)).clock = s.clock := by
      simp only [act, controlStop]
      split <;> exact ⟨rfl, rfl, rfl⟩
    intro a
    rw [hf.1, hf.2.1, hf.2.2]
    exact h a
  | submit b ty c f =>
    have hf : (act s (Act.submit b ty c f)).hbTimes = s.hbTimes ∧
        (act s (Act.submit b ty c f)).last_heartbeat = s.last_heartbeat ∧
        (act s (Act.submit b ty c f)).clock = s.clock := by
      simp only [act, controlSubmit]
      split <;> exact ⟨rfl, rfl, rfl⟩
    intro a
    rw [hf.1, hf.2.1, hf.2.2]
    exact h a
  | tick d =>
    intro a
    obtain ⟨hch, hb, hl⟩ := h a
    refine ⟨hch, ?_, hl⟩
    intro x hx
    have : (0 : ℚ) ≤ max d 0 := le_max_right d 0
    calc x ≤ s.clock := hb x hx
      _ ≤ s.clock + max d 0 := by linarith
  | work j =>
    cases hgj : s.workers[j]? with
    | none =>
      simpa [act, hgj] using h
    | some wj =>
      have hact : act s (Act.work j)
          = { (workerStep s wj).1 with
                workers := (workerStep s wj).1.workers.set j (workerStep s wj).2 } := by
        simp [act, hgj]
      rcases workerStep_heartbeat_cases s wj with ⟨h1, h2, h3⟩ | ⟨d, hd, h1, h2, h3⟩
      · intro a
        obtain ⟨hch, hb, hl⟩ := h a
        rw [hact]
        show List.Chain' _ ((workerStep s wj).1.hbTimes a) ∧ _
        rw [h1, h2]
        refine ⟨hch, ?_, hl⟩
        intro x hx
        exact le_trans (hb x hx) h3
      · intro a
        obtain ⟨hch, hb, hl⟩ := h a
        rw [hact]
        show List.Chain' _ ((workerStep s wj).1.hbTimes a) ∧ _
        rw [h1, h2, h3]
        by_cases ha : a = wj.agent
        · subst ha
          rw [Function.update_same, Function.update_same]
          refine ⟨chain_append_le _ _ hch hb, ?_, ?_⟩
          · intro x hx
            rcases List.mem_append.mp hx with hx | hx
            · calc x ≤ s.clock := hb x hx
                _ ≤ s.clock + d := by linarith
            · simp only [List.mem_singleton] at hx
              subst hx
              linarith
          · rw [List.getLast?_concat]
            rfl
        · rw [Function.update_noteq ha, Function.update_noteq ha]
          refine ⟨hch, ?_, hl⟩
          intro x hx
          calc x ≤ s.clock := hb x hx
            _ ≤ s.clock + d := by linarith



/-- `HeartbeatInv` holds along every run from an invariant state. -/
theorem heartbeatInv_runFrom (acts : List Act) :
    ∀ s : DashState, HeartbeatInv s → HeartbeatInv (runFrom s acts) := by
  induction acts with
  | nil =>
    intro s h
    exact h
  | cons e rest ih =>
    intro s h
    exact ih (act s e) (heartbeatInv_act s e h)

/-- `HeartbeatInv` holds initially. -/
theorem heartbeatInv_init : HeartbeatInv initState := by
  intro a
  refine ⟨List.chain'_nil, ?_, rfl⟩
  intro x hx
  simp [initState] at hx

/-- C9: in every reachable state, the successive times at which an
agent's `last_heartbeat` was written (idle-timeout heartbeats and
per-step heartbeats alike, hence in particular all writes made while the
agent was Running) form a monotonically non-decreasing sequence; the
stored `last_heartbeat` value is exactly the `strftime("%H:%M:%S")`
image of the most recent of those times. -/
theorem heartbeat_times_monotone (acts : List Act) (a : Agent) :
    List.Chain' (fun x y => x ≤ y) ((run acts).hbTimes a) ∧
    (run acts).last_heartbeat a
      = Option.map secondsOfDay ((run acts).hbTimes a).getLast? := by
  obtain ⟨hch, hbd, hl⟩ := heartbeatInv_runFrom acts initState heartbeatInv_init a
  exact ⟨hch, hl⟩

end AgentDash
